import Mathlib

/-!
Verification of the cache-and-lock coordination policy of a small CRUD
service (FastAPI demo for py_cachify).

The repository source (src/app/db.py, src/app/main.py) defines a User
entity and three endpoints:
  * create_user : inserts a User row (id autoassigned when absent);
  * read_user   : wrapped in a read-through cache decorator
                  `cached('read_user-{user_id}', ttl=300)`;
  * update_user : wrapped in a mutual-exclusion decorator
                  `once('update-user-{user_id}',
                        return_on_locked=JSONResponse({'status': 'Update in progress'}, 226))`,
                  loads the user, applies name/email from the request body,
                  commits, then resets the read cache for that id.

The decorators themselves (py_cachify) and the HTTP/ORM plumbing are
external collaborators not present in the source tree; their contracts are
modelled from the specification (sections 4.1-4.4).  The endpoint bodies
are translated from src/app/main.py.  All operations are modelled as pure
state transformers over an explicit system state (data store, cache, lock
set), and each emits a trace of observable effect events so that ordering
and frame properties can be stated.
-/

/-- The User entity, from src/app/db.py: `id` (optional until assigned,
primary key), `name`, `email`. -/
structure User where
  id : Option Int
  name : String
  email : String
deriving DecidableEq, Repr

/-- Modelled from the spec: cache and lock keys are derived
deterministically from "a template plus the entity identifier (e.g. a
templated string substituting the id)"; the template-formatting machinery
lives in the py_cachify library, outside the source tree, so a key is
modelled as the template string paired with the substituted id.  Distinct
templates or distinct ids give distinct keys, exactly the per-entity
distinctness the spec requires. -/
structure CKey where
  template : String
  id : Int
deriving DecidableEq, Repr

/-- Cache key of the read-through cache for a given user id, from the
decorator argument `'read_user-{user_id}'` in src/app/main.py. -/
def readKey (user_id : Int) : CKey :=
  { template := "read_user-{user_id}", id := user_id }

/-- Lock name guarding updates of a given user id, from the decorator
argument `'update-user-{user_id}'` in src/app/main.py. -/
def lockKey (user_id : Int) : CKey :=
  { template := "update-user-{user_id}", id := user_id }

/-- A cache entry: the stored (serialized) User snapshot together with the
time-to-live it was stored with. -/
structure CacheEntry where
  val : User
  ttl : Nat
deriving DecidableEq, Repr

/-- Observable effect events, used to state ordering and frame claims. -/
inductive Ev where
  | storeGet (user_id : Int)
  | storePut (user_id : Int)
  | cacheGet (k : CKey)
  | cacheSet (k : CKey) (ttl : Nat)
  | cacheReset (k : CKey)
  | lockAcquire (k : CKey)
  | lockBusy (k : CKey)
  | lockRelease (k : CKey)
deriving DecidableEq, Repr

/-- The shared external state: the relational table (association list from
id to row, most recent write first), the key-value cache, and the set of
currently held lock names. -/
structure SysState where
  store : List (Int × User)
  cache : List (CKey × CacheEntry)
  locks : List CKey
deriving DecidableEq, Repr

/-- Association-list lookup (most recent binding wins), the model of
lookup-by-primary-key and of cache `get`. -/
def alookup {α β : Type} [DecidableEq α] : List (α × β) → α → Option β
  | [], _ => none
  | (k2, v) :: rest, k => if k2 = k then some v else alookup rest k

/-- Cache invalidation: drop every entry stored under key `k`. -/
def cacheDrop (c : List (CKey × CacheEntry)) (k : CKey) : List (CKey × CacheEntry) :=
  c.filter (fun p => p.1 != k)

/-- Result of `read_user`: the optional User and the begin and end state,
plus the trace of effects. -/
structure ReadOut where
  result : Option User
  state : SysState
  trace : List Ev
deriving DecidableEq, Repr

/-- Modelled from the spec (4.1, 4.2): the py_cachify `cached` decorator,
whose code is not in the source tree.  Check the cache under `k`; on a hit
return the cached snapshot without touching the Data Store; on a miss run
the wrapped body; if the body found nothing return "not found" without
caching (negative results are never cached); otherwise store the result
with the given ttl and return it. -/
def cachedCall (k : CKey) (ttl : Nat) (body : SysState → Option User × List Ev)
    (s : SysState) : ReadOut :=
  match alookup s.cache k with
  | some e => ⟨some e.val, s, [Ev.cacheGet k]⟩
  | none =>
    match body s with
    | (none, evs) => ⟨none, s, Ev.cacheGet k :: evs⟩
    | (some u, evs) =>
        ⟨some u, { s with cache := (k, ⟨u, ttl⟩) :: s.cache },
         Ev.cacheGet k :: evs ++ [Ev.cacheSet k ttl]⟩

/-- The body of the GET endpoint from src/app/main.py:
`return await session.get(User, user_id)`. -/
def read_user_body (user_id : Int) (s : SysState) : Option User × List Ev :=
  (alookup s.store user_id, [Ev.storeGet user_id])

/-- The GET /users/\x7buser_id\x7d endpoint from src/app/main.py: the body
wrapped in `cached('read_user-{user_id}', ttl=300)`. -/
def read_user (user_id : Int) (s : SysState) : ReadOut :=
  cachedCall (readKey user_id) 300 (read_user_body user_id) s

/-- Outcome of the PUT endpoint: the busy response injected by the `once`
decorator, the "not found" (None) outcome, or the updated User. -/
inductive UpdateResult where
  | busy
  | notFound
  | ok (u : User)
deriving DecidableEq, Repr

/-- Result of `update_user`: outcome, final state, effect trace. -/
structure UpdOut where
  result : UpdateResult
  state : SysState
  trace : List Ev
deriving DecidableEq, Repr

/-- Modelled from the spec (4.3, 4.4): the py_cachify `once` decorator,
whose code is not in the source tree.  Attempt to acquire the named lock
without waiting; if another holder owns it, return the configured
`return_on_locked` outcome immediately, with no other effect.  Otherwise
run the wrapped body and release the lock on every exit path. -/
def onceCall (k : CKey) (body : SysState → Option User × SysState × List Ev)
    (s : SysState) : UpdOut :=
  if k ∈ s.locks then
    ⟨.busy, s, [Ev.lockBusy k]⟩
  else
    let s1 : SysState := { s with locks := k :: s.locks }
    match body s1 with
    | (r, s2, evs) =>
        ⟨(match r with | none => .notFound | some u => .ok u),
         { s2 with locks := s2.locks.erase k },
         Ev.lockAcquire k :: evs ++ [Ev.lockRelease k]⟩

/-- Mutate the loaded row with the request body's name and email, from
src/app/main.py: `user.name = new_user.name; user.email = new_user.email`.
The id field is not assigned. -/
def applyFields (u new_user : User) : User :=
  { u with name := new_user.name, email := new_user.email }

/-- The body of the PUT endpoint from src/app/main.py: load the user by
the path id (absent: return None); apply name/email from the request body;
`session.add` + `commit` (persist, with `refresh` re-reading the committed
row); then `read_user.reset(user_id=user_id)` invalidates the read cache
entry for this id; return the updated user. -/
def update_user_body (user_id : Int) (new_user : User) (s : SysState) :
    Option User × SysState × List Ev :=
  match alookup s.store user_id with
  | none => (none, s, [Ev.storeGet user_id])
  | some u =>
    let u2 := applyFields u new_user
    (some u2,
     { s with
        store := (user_id, u2) :: s.store,
        cache := cacheDrop s.cache (readKey user_id) },
     [Ev.storeGet user_id, Ev.storePut user_id, Ev.cacheReset (readKey user_id)])

/-- The PUT /users/\x7buser_id\x7d endpoint from src/app/main.py: the body
wrapped in `once('update-user-{user_id}', return_on_locked=...)`. -/
def update_user (user_id : Int) (new_user : User) (s : SysState) : UpdOut :=
  onceCall (lockKey user_id) (update_user_body user_id new_user) s

/-- Next autoassigned primary key, modelling SQLite rowid autoincrement:
one more than the largest id in the table (1 on an empty table). -/
def nextId (st : List (Int × User)) : Int :=
  (st.foldl (fun m p => max m p.1) 0) + 1

/-- The POST /users/ endpoint from src/app/main.py: `session.add(user)`,
`commit`, `refresh(user)` — insert the row, autoassigning an id when the
body carries none, and return the inserted row. -/
def create_user (user : User) (s : SysState) : User × SysState × List Ev :=
  match user.id with
  | some k => (user, { s with store := (k, user) :: s.store }, [Ev.storePut k])
  | none =>
    let k := nextId s.store
    let u2 : User := { user with id := some k }
    (u2, { s with store := (k, u2) :: s.store }, [Ev.storePut k])

/-- Minimal JSON model for response bodies at the HTTP boundary. -/
inductive Json where
  | null
  | str (s : String)
  | num (n : Int)
  | obj (fields : List (String × Json))

/-- JSON serialization of a User row. -/
def userJson (u : User) : Json :=
  .obj [("id", match u.id with | some i => .num i | none => .null),
        ("name", .str u.name), ("email", .str u.email)]

/-- HTTP status code and body for each PUT outcome.  The busy outcome is
the configured `JSONResponse(content={'status': 'Update in progress'},
status_code=226)`; a handler returning None is serialized by FastAPI as
body `null` with the route's default status 200; a returned User is its
JSON with status 200. -/
def updateResponse : UpdateResult → Nat × Json
  | .busy => (226, .obj [("status", .str "Update in progress")])
  | .notFound => (200, .null)
  | .ok u => (200, userJson u)

/-- `e1` occurs strictly before `e2` in the trace `tr`. -/
def occursBefore (e1 e2 : Ev) (tr : List Ev) : Prop :=
  ∃ i j, i < j ∧ tr.get? i = some e1 ∧ tr.get? j = some e2

def annU : User := { id := some 1, name := "Ann", email := "a@x.com" }

def bobU : User := { id := none, name := "Bob", email := "b@x.com" }

def demoS : SysState := { store := [(1, annU)], cache := [], locks := [] }

/-! ### Claims about the read path -/

/-- Control state of one in-flight PUT request, between suspension
points. -/
inductive TaskState where
  | ready
  | gotLock
  | noUserRow
  | loaded (u : User)
  | persisted (u : User)
  | invalidated (u : User)
  | finishedT (r : UpdateResult)
deriving DecidableEq, Repr

/-- One atomic step of an in-flight `update_user user_id new_user`
request against the shared state. -/
def stepTask (user_id : Int) (new_user : User) :
    TaskState → SysState → TaskState × SysState
  | .ready, s =>
      if lockKey user_id ∈ s.locks then (.finishedT .busy, s)
      else (.gotLock, { s with locks := lockKey user_id :: s.locks })
  | .gotLock, s =>
      match alookup s.store user_id with
      | none => (.noUserRow, s)
      | some u => (.loaded (applyFields u new_user), s)
  | .loaded u, s => (.persisted u, { s with store := (user_id, u) :: s.store })
  | .persisted u, s =>
      (.invalidated u, { s with cache := cacheDrop s.cache (readKey user_id) })
  | .invalidated u, s =>
      (.finishedT (.ok u), { s with locks := s.locks.erase (lockKey user_id) })
  | .noUserRow, s =>
      (.finishedT .notFound, { s with locks := s.locks.erase (lockKey user_id) })
  | .finishedT r, s => (.finishedT r, s)

/-- Configuration of two concurrent PUT requests over the shared state. -/
structure TwoTasks where
  sys : SysState
  tA : TaskState
  tB : TaskState
deriving DecidableEq, Repr

/-- Which request the scheduler lets take its next step. -/
inductive Tid where
  | A
  | B
deriving DecidableEq, Repr

/-- One scheduler step: `pA`/`pB` are the (path id, request body) of the
two requests. -/
def stepConfig (pA pB : Int × User) : Tid → TwoTasks → TwoTasks
  | .A, c =>
      let r := stepTask pA.1 pA.2 c.tA c.sys
      { c with tA := r.1, sys := r.2 }
  | .B, c =>
      let r := stepTask pB.1 pB.2 c.tB c.sys
      { c with tB := r.1, sys := r.2 }

/-- Run a whole schedule. -/
def runSched (pA pB : Int × User) (sched : List Tid) (c : TwoTasks) : TwoTasks :=
  sched.foldl (fun c t => stepConfig pA pB t c) c

/-- A task currently holds its lock (it acquired and has not released). -/
def holding : TaskState → Bool
  | .gotLock => true
  | .noUserRow => true
  | .loaded _ => true
  | .persisted _ => true
  | .invalidated _ => true
  | _ => false

/-- The outcome a task will reach if from here on it runs without
interference. -/
def willFinish (user_id : Int) (new_user : User) : TaskState → SysState → UpdateResult
  | .ready, s =>
      if lockKey user_id ∈ s.locks then .busy
      else
        match alookup s.store user_id with
        | none => .notFound
        | some u => .ok (applyFields u new_user)
  | .gotLock, s =>
      match alookup s.store user_id with
      | none => .notFound
      | some u => .ok (applyFields u new_user)
  | .loaded u, _ => .ok u
  | .persisted u, _ => .ok u
  | .invalidated u, _ => .ok u
  | .noUserRow, _ => .notFound
  | .finishedT r, _ => r

/-- Invariant of a pair of same-id update tasks (`x` the task about to be
considered, `y` the other) over the shared state: never both hold the
lock; the lock set is the base set plus exactly the per-id lock while one
of them holds it; the row stays present; neither task ever observes a
missing row; a task past its persist step sees its own write in the
store. -/
def pairInv (user_id : Int) (base : List CKey) (x y : TaskState) (s : SysState) : Prop :=
  ¬(holding x = true ∧ holding y = true) ∧
  (if holding x = true ∨ holding y = true
     then s.locks = lockKey user_id :: base
     else s.locks = base) ∧
  (alookup s.store user_id).isSome = true ∧
  x ≠ .noUserRow ∧ y ≠ .noUserRow ∧
  x ≠ .finishedT .notFound ∧ y ≠ .finishedT .notFound ∧
  (∀ u, (x = .persisted u ∨ x = .invalidated u) → alookup s.store user_id = some u) ∧
  (∀ u, (y = .persisted u ∨ y = .invalidated u) → alookup s.store user_id = some u)

/-- The pair invariant read off a two-task configuration of same-id
updates. -/
def sameIdInv (user_id : Int) (base : List CKey) (c : TwoTasks) : Prop :=
  pairInv user_id base c.tA c.tB c.sys

/-- While the contending task B has not yet taken a single step, task A is
doing the only read-modify-write in the system: its pending value is the
original row with A's fields applied. -/
def soloInv (user_id : Int) (u0 new_user : User) (c : TwoTasks) : Prop :=
  c.tB = .ready →
    ((c.tA = .ready ∨ c.tA = .gotLock) → alookup c.sys.store user_id = some u0) ∧
    (∀ u, c.tA = .loaded u → u = applyFields u0 new_user) ∧
    (∀ u, (c.tA = .persisted u ∨ c.tA = .invalidated u ∨ c.tA = .finishedT (.ok u)) →
        u = applyFields u0 new_user)

/-- Once the contender B has observed busy, B stays finished-busy and A's
eventual outcome and (after its persist) its own store row are stable. -/
def busyBInv (user_id : Int) (nuA : User) (v : UpdateResult) (c : TwoTasks) : Prop :=
  c.tB = .finishedT .busy ∧
  willFinish user_id nuA c.tA c.sys = v ∧
  ∀ u, (c.tA = .persisted u ∨ c.tA = .invalidated u ∨ c.tA = .finishedT (.ok u)) →
      alookup c.sys.store user_id = some u

/-- For two tasks on distinct ids, both pending outcomes are invariant
under every scheduler step. -/
def twoIdInv (idA idB : Int) (nuA nuB : User) (vA vB : UpdateResult) (c : TwoTasks) : Prop :=
  willFinish idA nuA c.tA c.sys = vA ∧ willFinish idB nuB c.tB c.sys = vB

def caraU : User := { id := none, name := "Cara", email := "c@x.com" }

def danU : User := { id := some 2, name := "Dan", email := "d@x.com" }

def demo2S : SysState := { store := [(1, annU), (2, danU)], cache := [], locks := [] }

example :
    (read_user 1 ⟨[(1, ⟨some 1, "Ann", "a@x.com"⟩)], [], []⟩).result
      = some ⟨some 1, "Ann", "a@x.com"⟩ := by decide

example :
    (update_user 1 ⟨none, "Ann2", "a@x.com"⟩
        ⟨[(1, ⟨some 1, "Ann", "a@x.com"⟩)], [], []⟩).result
      = .ok ⟨some 1, "Ann2", "a@x.com"⟩ := by decide

example :
    (update_user 1 ⟨none, "Ann2", "a@x.com"⟩
        ⟨[(1, ⟨some 1, "Ann", "a@x.com"⟩)], [], [lockKey 1]⟩).result
      = .busy := by decide

example :
    (read_user 2 ⟨[(1, ⟨some 1, "Ann", "a@x.com"⟩)], [], []⟩).result = none := by
  decide

/-! ### Concrete demo values used by witnesses -/

/-- C1: for an id absent from the Data Store (and not cached), `read_user`
returns "not found" and leaves the whole state — in particular the cache —
unchanged; after inserting that id, an immediate second read returns the
newly inserted row. -/
theorem C1_negative_read_not_cached (user_id : Int) (nm em : String) (s : SysState)
    (hc : alookup s.cache (readKey user_id) = none)
    (hs : alookup s.store user_id = none) :
    (read_user user_id s).result = none ∧
    (read_user user_id s).state = s ∧
    (read_user user_id
        (create_user { id := some user_id, name := nm, email := em } s).2.1).result
      = some { id := some user_id, name := nm, email := em } := by
  refine ⟨?_, ?_, ?_⟩
  · simp [read_user, cachedCall, read_user_body, hc, hs]
  · simp [read_user, cachedCall, read_user_body, hc, hs]
  · simp [read_user, cachedCall, read_user_body, create_user, hc, hs, alookup]

/-- Witness for C1 at a concrete input: id 7 is absent from the demo
store and cache. -/
theorem C1_witness :
    alookup demoS.cache (readKey 7) = none ∧
    alookup demoS.store 7 = none ∧
    ((read_user 7 demoS).result = none ∧
     (read_user 7 demoS).state = demoS ∧
     (read_user 7
        (create_user { id := some 7, name := "Bob", email := "b@x.com" } demoS).2.1).result
       = some { id := some 7, name := "Bob", email := "b@x.com" }) :=
  ⟨by decide, by decide,
   C1_negative_read_not_cached 7 "Bob" "b@x.com" demoS (by decide) (by decide)⟩

/-- C4: when the cache holds an entry for the key derived from the id,
`read_user` returns the cached snapshot, leaves the state unchanged, and
its trace holds no Data Store access at all. -/
theorem C4_cache_hit_no_store (user_id : Int) (s : SysState) (e : CacheEntry)
    (h : alookup s.cache (readKey user_id) = some e) :
    read_user user_id s = ⟨some e.val, s, [Ev.cacheGet (readKey user_id)]⟩ ∧
    ∀ i, Ev.storeGet i ∉ (read_user user_id s).trace ∧
         Ev.storePut i ∉ (read_user user_id s).trace := by
  have h1 : read_user user_id s = ⟨some e.val, s, [Ev.cacheGet (readKey user_id)]⟩ := by
    simp [read_user, cachedCall, h]
  refine ⟨h1, fun i => ?_⟩
  rw [h1]
  simp

/-- Witness for C4 at a concrete input: a state whose cache holds an
entry for id 1. -/
theorem C4_witness :
    alookup (⟨[(1, annU)], [(readKey 1, ⟨annU, 300⟩)], []⟩ : SysState).cache (readKey 1)
      = some ⟨annU, 300⟩ ∧
    (read_user 1 ⟨[(1, annU)], [(readKey 1, ⟨annU, 300⟩)], []⟩
      = ⟨some annU, ⟨[(1, annU)], [(readKey 1, ⟨annU, 300⟩)], []⟩,
         [Ev.cacheGet (readKey 1)]⟩ ∧
     ∀ i, Ev.storeGet i ∉ (read_user 1 ⟨[(1, annU)], [(readKey 1, ⟨annU, 300⟩)], []⟩).trace ∧
          Ev.storePut i ∉ (read_user 1 ⟨[(1, annU)], [(readKey 1, ⟨annU, 300⟩)], []⟩).trace) :=
  ⟨by decide, C4_cache_hit_no_store 1 _ ⟨annU, 300⟩ (by decide)⟩

/-- C10: every cache entry written by a cache-miss `read_user` is stored
with ttl exactly 300 seconds: any `cacheSet` event in its trace carries
ttl 300, and the cache either is untouched or gains exactly one entry
with ttl 300. -/
theorem C10_ttl_is_300 (user_id : Int) (s : SysState) (k : CKey) (t : Nat)
    (h : Ev.cacheSet k t ∈ (read_user user_id s).trace) :
    t = 300 ∧
    ((read_user user_id s).state.cache = s.cache ∨
     ∃ u, (read_user user_id s).state.cache
        = (readKey user_id, ⟨u, 300⟩) :: s.cache) := by
  rcases hc : alookup s.cache (readKey user_id) with _ | e
  · rcases hs : alookup s.store user_id with _ | u
    · simp [read_user, cachedCall, read_user_body, hc, hs] at h
    · simp only [read_user, cachedCall, read_user_body, hc, hs] at h ⊢
      simp at h
      exact ⟨h.2, Or.inr ⟨u, rfl⟩⟩
  · simp [read_user, cachedCall, hc] at h

/-- Witness for C10 at a concrete input: a miss on id 1 populates the
cache, emitting a `cacheSet` with ttl 300. -/
theorem C10_witness :
    Ev.cacheSet (readKey 1) 300 ∈ (read_user 1 demoS).trace ∧
    (300 = 300 ∧
     ((read_user 1 demoS).state.cache = demoS.cache ∨
      ∃ u, (read_user 1 demoS).state.cache = (readKey 1, ⟨u, 300⟩) :: demoS.cache)) :=
  ⟨by decide, C10_ttl_is_300 1 demoS (readKey 1) 300 (by decide)⟩

/-! ### Claims about the update path -/

/-- C2: in every successful update (lock acquired, entity present) the
trace is exactly acquire, load, persist, cache-invalidate, release; in
particular the store write occurs strictly before the cache invalidation,
which occurs strictly before the lock release. -/
theorem C2_update_effect_order (user_id : Int) (new_user : User) (s : SysState) (u : User)
    (h : (update_user user_id new_user s).result = .ok u) :
    (update_user user_id new_user s).trace =
      [Ev.lockAcquire (lockKey user_id), Ev.storeGet user_id, Ev.storePut user_id,
       Ev.cacheReset (readKey user_id), Ev.lockRelease (lockKey user_id)] ∧
    occursBefore (Ev.storePut user_id) (Ev.cacheReset (readKey user_id))
      (update_user user_id new_user s).trace ∧
    occursBefore (Ev.cacheReset (readKey user_id)) (Ev.lockRelease (lockKey user_id))
      (update_user user_id new_user s).trace := by
  by_cases hl : lockKey user_id ∈ s.locks
  · exfalso
    simp [update_user, onceCall, hl] at h
  · rcases hs : alookup s.store user_id with _ | u0
    · exfalso
      simp [update_user, onceCall, update_user_body, hl, hs] at h
    · have ht : (update_user user_id new_user s).trace =
        [Ev.lockAcquire (lockKey user_id), Ev.storeGet user_id, Ev.storePut user_id,
         Ev.cacheReset (readKey user_id), Ev.lockRelease (lockKey user_id)] := by
        simp [update_user, onceCall, update_user_body, hl, hs]
      refine ⟨ht, ?_, ?_⟩
      · rw [ht]
        exact ⟨2, 3, by omega, rfl, rfl⟩
      · rw [ht]
        exact ⟨3, 4, by omega, rfl, rfl⟩

/-- Witness for C2 at a concrete input: a successful update of id 1. -/
theorem C2_witness :
    (update_user 1 bobU demoS).result = .ok { id := some 1, name := "Bob", email := "b@x.com" } ∧
    ((update_user 1 bobU demoS).trace =
      [Ev.lockAcquire (lockKey 1), Ev.storeGet 1, Ev.storePut 1,
       Ev.cacheReset (readKey 1), Ev.lockRelease (lockKey 1)] ∧
     occursBefore (Ev.storePut 1) (Ev.cacheReset (readKey 1)) (update_user 1 bobU demoS).trace ∧
     occursBefore (Ev.cacheReset (readKey 1)) (Ev.lockRelease (lockKey 1))
       (update_user 1 bobU demoS).trace) :=
  ⟨by decide,
   C2_update_effect_order 1 bobU demoS
     { id := some 1, name := "Bob", email := "b@x.com" } (by decide)⟩

/-- C3: when the per-id lock is already held, `update_user` returns the
distinguished busy outcome — surfaced as HTTP 226 with body
\x7b"status": "Update in progress"\x7d — leaves the state untouched, and its
trace holds no Data Store read or write and no cache operation. -/
theorem C3_busy_no_effects (user_id : Int) (new_user : User) (s : SysState)
    (h : lockKey user_id ∈ s.locks) :
    update_user user_id new_user s = ⟨.busy, s, [Ev.lockBusy (lockKey user_id)]⟩ ∧
    updateResponse (update_user user_id new_user s).result
      = (226, Json.obj [("status", Json.str "Update in progress")]) ∧
    ∀ i k t, Ev.storeGet i ∉ (update_user user_id new_user s).trace ∧
             Ev.storePut i ∉ (update_user user_id new_user s).trace ∧
             Ev.cacheGet k ∉ (update_user user_id new_user s).trace ∧
             Ev.cacheSet k t ∉ (update_user user_id new_user s).trace ∧
             Ev.cacheReset k ∉ (update_user user_id new_user s).trace := by
  have h1 : update_user user_id new_user s = ⟨.busy, s, [Ev.lockBusy (lockKey user_id)]⟩ := by
    simp [update_user, onceCall, h]
  refine ⟨h1, ?_, fun i k t => ?_⟩
  · rw [h1]
    rfl
  · rw [h1]
    simp

/-- Witness for C3 at a concrete input: the lock for id 1 is held. -/
theorem C3_witness :
    lockKey 1 ∈ (⟨[(1, annU)], [], [lockKey 1]⟩ : SysState).locks ∧
    (update_user 1 bobU ⟨[(1, annU)], [], [lockKey 1]⟩
       = ⟨.busy, ⟨[(1, annU)], [], [lockKey 1]⟩, [Ev.lockBusy (lockKey 1)]⟩ ∧
     updateResponse (update_user 1 bobU ⟨[(1, annU)], [], [lockKey 1]⟩).result
       = (226, Json.obj [("status", Json.str "Update in progress")]) ∧
     ∀ i k t,
       Ev.storeGet i ∉ (update_user 1 bobU ⟨[(1, annU)], [], [lockKey 1]⟩).trace ∧
       Ev.storePut i ∉ (update_user 1 bobU ⟨[(1, annU)], [], [lockKey 1]⟩).trace ∧
       Ev.cacheGet k ∉ (update_user 1 bobU ⟨[(1, annU)], [], [lockKey 1]⟩).trace ∧
       Ev.cacheSet k t ∉ (update_user 1 bobU ⟨[(1, annU)], [], [lockKey 1]⟩).trace ∧
       Ev.cacheReset k ∉ (update_user 1 bobU ⟨[(1, annU)], [], [lockKey 1]⟩).trace) :=
  ⟨by decide, C3_busy_no_effects 1 bobU ⟨[(1, annU)], [], [lockKey 1]⟩ (by decide)⟩

/-- C5: every invocation of `update_user` that acquires the lock (it was
not held on entry) releases it on every exit path: the outcome is never
busy, the lock set is restored exactly, and the lock for that id is
acquirable again afterwards. -/
theorem C5_lock_always_released (user_id : Int) (new_user : User) (s : SysState)
    (h : lockKey user_id ∉ s.locks) :
    (update_user user_id new_user s).result ≠ .busy ∧
    (update_user user_id new_user s).state.locks = s.locks ∧
    lockKey user_id ∉ (update_user user_id new_user s).state.locks := by
  have hlocks : (update_user user_id new_user s).state.locks = s.locks ∧
      (update_user user_id new_user s).result ≠ .busy := by
    rcases hs : alookup s.store user_id with _ | u0
    · simp [update_user, onceCall, update_user_body, h, hs]
    · simp [update_user, onceCall, update_user_body, h, hs]
  refine ⟨hlocks.2, hlocks.1, ?_⟩
  rw [hlocks.1]
  exact h

/-- Witness for C5 at a concrete input: the lock for id 1 is free, and
also exercised on the not-found path (id 7). -/
theorem C5_witness :
    lockKey 1 ∉ demoS.locks ∧
    ((update_user 1 bobU demoS).result ≠ .busy ∧
     (update_user 1 bobU demoS).state.locks = demoS.locks ∧
     lockKey 1 ∉ (update_user 1 bobU demoS).state.locks) ∧
    lockKey 7 ∉ demoS.locks ∧
    ((update_user 7 bobU demoS).result ≠ .busy ∧
     (update_user 7 bobU demoS).state.locks = demoS.locks ∧
     lockKey 7 ∉ (update_user 7 bobU demoS).state.locks) :=
  ⟨by decide, C5_lock_always_released 1 bobU demoS (by decide),
   by decide, C5_lock_always_released 7 bobU demoS (by decide)⟩

/-- C6 counterexample: for id 1 absent from an empty store, with the lock
free, the PUT handler returns None, which FastAPI serializes as HTTP 200
with body null — not a 404 status.  This refutes the claim that the
response is a 404-equivalent "rather than a 200 success response". -/
theorem C6_counterexample :
    (update_user 1 bobU { store := [], cache := [], locks := [] }).result
      = .notFound ∧
    (updateResponse
        (update_user 1 bobU { store := [], cache := [], locks := [] }).result).1 = 200 ∧
    (updateResponse
        (update_user 1 bobU { store := [], cache := [], locks := [] }).result).1 ≠ 404 :=
  ⟨by decide, by decide, by decide⟩

/-- C6 amended: for an id absent from the Data Store, a PUT whose lock
acquisition succeeds returns the not-found outcome (the handler's None),
surfaced as HTTP 200 with body null — a response distinguishable from a
successful update only by its null body, not by a 404 status. -/
theorem C6_absent_yields_null_200 (user_id : Int) (new_user : User) (s : SysState)
    (hl : lockKey user_id ∉ s.locks)
    (hs : alookup s.store user_id = none) :
    (update_user user_id new_user s).result = .notFound ∧
    updateResponse (update_user user_id new_user s).result = (200, Json.null) := by
  have h1 : (update_user user_id new_user s).result = .notFound := by
    simp [update_user, onceCall, update_user_body, hl, hs]
  rw [h1]
  exact ⟨rfl, rfl⟩

/-- Witness for the amended C6 at a concrete input: id 7 is absent from
the demo store. -/
theorem C6_witness :
    lockKey 7 ∉ demoS.locks ∧
    alookup demoS.store 7 = none ∧
    ((update_user 7 bobU demoS).result = .notFound ∧
     updateResponse (update_user 7 bobU demoS).result = (200, Json.null)) :=
  ⟨by decide, by decide, C6_absent_yields_null_200 7 bobU demoS (by decide) (by decide)⟩

/-- C8: a successful update changes at most name and email: the returned
and persisted row is exactly the loaded row with name and email replaced,
so its id equals the id the entity was stored with, and it is persisted
under the same primary key. -/
theorem C8_id_immutable (user_id : Int) (new_user : User) (s : SysState) (u2 : User)
    (h : (update_user user_id new_user s).result = .ok u2) :
    ∃ u, alookup s.store user_id = some u ∧
      u2 = applyFields u new_user ∧
      u2.id = u.id ∧
      alookup (update_user user_id new_user s).state.store user_id = some u2 := by
  by_cases hl : lockKey user_id ∈ s.locks
  · exfalso
    simp [update_user, onceCall, hl] at h
  · rcases hs : alookup s.store user_id with _ | u0
    · exfalso
      simp [update_user, onceCall, update_user_body, hl, hs] at h
    · refine ⟨u0, rfl, ?_, ?_, ?_⟩
      · simp [update_user, onceCall, update_user_body, hl, hs] at h
        exact h.symm
      · simp [update_user, onceCall, update_user_body, hl, hs] at h
        rw [← h]
        rfl
      · simp [update_user, onceCall, update_user_body, hl, hs] at h ⊢
        simp [alookup, ← h]

/-- Witness for C8 at a concrete input: updating id 1 from Ann to Bob
keeps id 1. -/
theorem C8_witness :
    (update_user 1 bobU demoS).result
      = .ok { id := some 1, name := "Bob", email := "b@x.com" } ∧
    (∃ u, alookup demoS.store 1 = some u ∧
      ({ id := some 1, name := "Bob", email := "b@x.com" } : User) = applyFields u bobU ∧
      ({ id := some 1, name := "Bob", email := "b@x.com" } : User).id = u.id ∧
      alookup (update_user 1 bobU demoS).state.store 1
        = some { id := some 1, name := "Bob", email := "b@x.com" }) :=
  ⟨by decide,
   C8_id_immutable 1 bobU demoS
     { id := some 1, name := "Bob", email := "b@x.com" } (by decide)⟩

/-- C9: the id carried in the PUT request body is ignored: two request
bodies agreeing on name and email (but possibly differing on id) produce
identical behavior — same outcome, same final state, same trace — for the
entity selected by the path parameter. -/
theorem C9_body_id_ignored (user_id : Int) (nu1 nu2 : User) (s : SysState)
    (hn : nu1.name = nu2.name) (he : nu1.email = nu2.email) :
    update_user user_id nu1 s = update_user user_id nu2 s := by
  simp only [update_user, onceCall, update_user_body, applyFields, hn, he]

/-- Witness for C9 at a concrete input: bodies with id 99 and no id,
both named Bob, update id 1 identically. -/
theorem C9_witness :
    ({ id := some 99, name := "Bob", email := "b@x.com" } : User).name = bobU.name ∧
    ({ id := some 99, name := "Bob", email := "b@x.com" } : User).email = bobU.email ∧
    update_user 1 { id := some 99, name := "Bob", email := "b@x.com" } demoS
      = update_user 1 bobU demoS :=
  ⟨by decide, by decide,
   C9_body_id_ignored 1 { id := some 99, name := "Bob", email := "b@x.com" } bobU demoS
     (by decide) (by decide)⟩

/-! ### Interleaving semantics for concurrent updates (C7)

`update_user` suspends at each I/O call: lock try-acquire, `session.get`,
`commit` (persist), `read_user.reset`, lock release.  `stepTask`
decomposes one PUT request into those five atomic steps against the
shared state (`refresh` only re-reads the just-committed row and is
absorbed into the persist step); two requests are then run under an
arbitrary schedule. -/

/-- Sanity: one task run alone under the step semantics reaches exactly
the outcome and final state of the monolithic `update_user`. -/
theorem stepTask_agrees_update_user (user_id : Int) (new_user : User) (s : SysState) :
    (runSched (user_id, new_user) (user_id, new_user)
        [Tid.A, Tid.A, Tid.A, Tid.A, Tid.A] ⟨s, .ready, .ready⟩).tA
      = .finishedT (update_user user_id new_user s).result ∧
    (runSched (user_id, new_user) (user_id, new_user)
        [Tid.A, Tid.A, Tid.A, Tid.A, Tid.A] ⟨s, .ready, .ready⟩).sys
      = (update_user user_id new_user s).state := by
  by_cases hl : lockKey user_id ∈ s.locks
  · simp [runSched, stepConfig, stepTask, update_user, onceCall, hl]
  · rcases hs : alookup s.store user_id with _ | u0
    · simp [runSched, stepConfig, stepTask, update_user, onceCall, update_user_body, hl, hs]
    · simp [runSched, stepConfig, stepTask, update_user, onceCall, update_user_body, hl, hs]

/-! ### Helper lemmas for the interleaving semantics -/

theorem alookup_cons_self {α β : Type} [DecidableEq α] (k : α) (v : β) (l : List (α × β)) :
    alookup ((k, v) :: l) k = some v := by
  simp [alookup]

theorem alookup_cons_ne {α β : Type} [DecidableEq α] {k1 k2 : α} (v : β) (l : List (α × β))
    (h : k1 ≠ k2) : alookup ((k1, v) :: l) k2 = alookup l k2 := by
  simp [alookup, h]

theorem lockKey_ne_of_ne {i j : Int} (h : i ≠ j) : lockKey i ≠ lockKey j := by
  simp [lockKey]
  exact h

theorem runSched_invariant (pA pB : Int × User) (P : TwoTasks → Prop)
    (hstep : ∀ t c, P c → P (stepConfig pA pB t c)) :
    ∀ sched c, P c → P (runSched pA pB sched c) := by
  intro sched
  induction sched with
  | nil => intro c h; exact h
  | cons t rest ih =>
      intro c h
      exact ih _ (hstep t c h)

theorem runSched_append (pA pB : Int × User) (l1 l2 : List Tid) (c : TwoTasks) :
    runSched pA pB (l1 ++ l2) c = runSched pA pB l2 (runSched pA pB l1 c) := by
  simp [runSched, List.foldl_append]

theorem stepConfigB_tA (pA pB : Int × User) (c : TwoTasks) :
    (stepConfig pA pB .B c).tA = c.tA := rfl

theorem runSched_allB_tA (pA pB : Int × User) (c : TwoTasks) :
    (runSched pA pB [Tid.B, Tid.B, Tid.B, Tid.B, Tid.B] c).tA = c.tA := rfl

/-- A step never returns a task to its initial `ready` control state. -/
theorem stepTask_ne_ready (user_id : Int) (new_user : User) (ts : TaskState) (s : SysState) :
    (stepTask user_id new_user ts s).1 ≠ .ready := by
  cases ts with
  | ready =>
      by_cases hl : lockKey user_id ∈ s.locks <;> simp [stepTask, hl]
  | gotLock =>
      rcases hs : alookup s.store user_id with _ | u <;> simp [stepTask, hs]
  | noUserRow => simp [stepTask]
  | loaded u => simp [stepTask]
  | persisted u => simp [stepTask]
  | invalidated u => simp [stepTask]
  | finishedT r => simp [stepTask]

/-- A task's eventual outcome is invariant under its own steps. -/
theorem willFinish_stepTask (user_id : Int) (new_user : User) (ts : TaskState) (s : SysState) :
    willFinish user_id new_user (stepTask user_id new_user ts s).1
        (stepTask user_id new_user ts s).2
      = willFinish user_id new_user ts s := by
  cases ts with
  | ready =>
      by_cases hl : lockKey user_id ∈ s.locks <;> simp [stepTask, willFinish, hl]
  | gotLock =>
      rcases hs : alookup s.store user_id with _ | u <;> simp [stepTask, willFinish, hs]
  | noUserRow => simp [stepTask, willFinish]
  | loaded u => simp [stepTask, willFinish]
  | persisted u => simp [stepTask, willFinish]
  | invalidated u => simp [stepTask, willFinish]
  | finishedT r => simp [stepTask, willFinish]

/-- A task's eventual outcome depends on the shared state only through
its own lock name and its own store row. -/
theorem willFinish_congr (user_id : Int) (new_user : User) (ts : TaskState) (s s2 : SysState)
    (hl : lockKey user_id ∈ s2.locks ↔ lockKey user_id ∈ s.locks)
    (hs : alookup s2.store user_id = alookup s.store user_id) :
    willFinish user_id new_user ts s2 = willFinish user_id new_user ts s := by
  cases ts with
  | ready =>
      simp only [willFinish, hs]
      exact if_congr hl rfl rfl
  | gotLock => simp only [willFinish, hs]
  | noUserRow => rfl
  | loaded u => rfl
  | persisted u => rfl
  | invalidated u => rfl
  | finishedT r => rfl

/-! ### Mutual-exclusion invariant for two updates of the same id -/

theorem pairInv_swap (user_id : Int) (base : List CKey) (x y : TaskState) (s : SysState)
    (h : pairInv user_id base x y s) : pairInv user_id base y x s := by
  obtain ⟨h1, h2, h3, h4, h5, h6, h7, h8, h9⟩ := h
  refine ⟨fun hc => h1 ⟨hc.2, hc.1⟩, ?_, h3, h5, h4, h7, h6, h9, h8⟩
  by_cases hx : holding x = true <;> by_cases hy : holding y = true <;>
    simp only [hx, hy, true_or, or_true, or_self, if_true, if_false,
      false_or, or_false] at h2 ⊢ <;> exact h2

theorem holding_gotLock : holding TaskState.gotLock = true := rfl

theorem holding_loaded (u : User) : holding (TaskState.loaded u) = true := rfl

theorem holding_persisted (u : User) : holding (TaskState.persisted u) = true := rfl

theorem holding_invalidated (u : User) : holding (TaskState.invalidated u) = true := rfl

theorem pairInv_step (user_id : Int) (new_user : User) (base : List CKey)
    (x y : TaskState) (s : SysState)
    (h : pairInv user_id base x y s) :
    pairInv user_id base (stepTask user_id new_user x s).1 y
      (stepTask user_id new_user x s).2 := by
  obtain ⟨h1, h2, h3, h4, h5, h6, h7, h8, h9⟩ := h
  cases x with
  | ready =>
      by_cases hl : lockKey user_id ∈ s.locks
      · -- the lock is held (necessarily by the other task): finish busy
        simp only [stepTask, hl, if_true]
        refine ⟨?_, ?_, h3, by simp, h5, by simp, h7, ?_, h9⟩
        · rintro ⟨hx, -⟩
          simp [holding] at hx
        · by_cases hy : holding y = true
          · rw [if_pos (Or.inr hy)] at h2
            rw [if_pos (Or.inr hy)]
            exact h2
          · have hc1 : ¬(holding TaskState.ready = true ∨ holding y = true) := by
              rintro (hx | hy2)
              · exact absurd hx (by simp [holding])
              · exact hy hy2
            have hc2 : ¬(holding (TaskState.finishedT .busy) = true ∨ holding y = true) := by
              rintro (hx | hy2)
              · exact absurd hx (by simp [holding])
              · exact hy hy2
            rw [if_neg hc1] at h2
            rw [if_neg hc2]
            exact h2
        · rintro u (hu | hu) <;> exact absurd hu (by simp)
      · -- the lock is free: acquire it
        have hy : ¬(holding y = true) := by
          intro hy
          apply hl
          rw [if_pos (Or.inr hy)] at h2
          rw [h2]
          exact List.mem_cons_self _ _
        have hc1 : ¬(holding TaskState.ready = true ∨ holding y = true) := by
          rintro (hx | hy2)
          · exact absurd hx (by simp [holding])
          · exact hy hy2
        have hbase2 : s.locks = base := by
          rw [if_neg hc1] at h2
          exact h2
        simp only [stepTask, hl, if_false]
        refine ⟨?_, ?_, h3, by simp, h5, by simp, h7, ?_, h9⟩
        · rintro ⟨-, hy2⟩
          exact hy hy2
        · rw [if_pos (Or.inl holding_gotLock)]
          simp [hbase2]
        · rintro u (hu | hu) <;> exact absurd hu (by simp)
  | gotLock =>
      rcases hx : alookup s.store user_id with _ | u0
      · rw [hx] at h3
        simp at h3
      · simp only [stepTask, hx]
        refine ⟨?_, ?_, h3, by simp, h5, by simp, h7, ?_, h9⟩
        · rintro ⟨-, hy2⟩
          exact h1 ⟨rfl, hy2⟩
        · rw [if_pos (Or.inl
            (holding_loaded _))]
          rw [if_pos (Or.inl holding_gotLock)] at h2
          exact h2
        · rintro u (hu | hu) <;> exact absurd hu (by simp)
  | loaded u =>
      have hyn : ¬(holding y = true) := fun hy => h1 ⟨rfl, hy⟩
      simp only [stepTask]
      refine ⟨?_, ?_, ?_, by simp, h5, by simp, h7, ?_, ?_⟩
      · rintro ⟨-, hy2⟩
        exact hyn hy2
      · rw [if_pos (Or.inl (holding_persisted _))]
        rw [if_pos (Or.inl (holding_loaded _))] at h2
        simpa using h2
      · simp [alookup_cons_self]
      · rintro u2 (hu | hu)
        · injection hu with h10
          subst h10
          simp [alookup_cons_self]
        · exact absurd hu (by simp)
      · rintro u2 hu
        exfalso
        apply hyn
        rcases hu with hu | hu <;> rw [hu] <;> rfl
  | persisted u =>
      have hyn : ¬(holding y = true) := fun hy => h1 ⟨rfl, hy⟩
      simp only [stepTask]
      refine ⟨?_, ?_, h3, by simp, h5, by simp, h7, ?_, h9⟩
      · rintro ⟨-, hy2⟩
        exact hyn hy2
      · rw [if_pos (Or.inl (holding_invalidated _))]
        rw [if_pos (Or.inl (holding_persisted _))] at h2
        simpa using h2
      · rintro u2 (hu | hu)
        · exact absurd hu (by simp)
        · injection hu with h10
          subst h10
          simpa using h8 u (Or.inl rfl)
  | invalidated u =>
      have hyn : ¬(holding y = true) := fun hy => h1 ⟨rfl, hy⟩
      have hlocks : s.locks = lockKey user_id :: base := by
        rw [if_pos (Or.inl (holding_invalidated _))] at h2
        exact h2
      simp only [stepTask]
      refine ⟨?_, ?_, h3, by simp, h5, by simp, h7, ?_, h9⟩
      · rintro ⟨hx, -⟩
        simp [holding] at hx
      · have hc : ¬(holding (TaskState.finishedT (.ok u)) = true ∨ holding y = true) := by
          rintro (hx | hy2)
          · exact absurd hx (by simp [holding])
          · exact hyn hy2
        rw [if_neg hc]
        show s.locks.erase (lockKey user_id) = base
        rw [hlocks]
        exact List.erase_cons_head _ _
      · rintro u2 (hu | hu) <;> exact absurd hu (by simp)
  | noUserRow => exact absurd rfl h4
  | finishedT r =>
      simp only [stepTask]
      exact ⟨h1, h2, h3, h4, h5, h6, h7, h8, h9⟩

theorem sameIdInv_step (user_id : Int) (nuA nuB : User) (base : List CKey) :
    ∀ t c, sameIdInv user_id base c →
      sameIdInv user_id base (stepConfig (user_id, nuA) (user_id, nuB) t c) := by
  intro t c h
  cases t with
  | A => exact pairInv_step user_id nuA base c.tA c.tB c.sys h
  | B =>
      exact pairInv_swap _ _ _ _ _
        (pairInv_step user_id nuB base c.tB c.tA c.sys (pairInv_swap _ _ _ _ _ h))

theorem soloInv_step (user_id : Int) (u0 nuA nuB : User) :
    ∀ t c, soloInv user_id u0 nuA c →
      soloInv user_id u0 nuA (stepConfig (user_id, nuA) (user_id, nuB) t c) := by
  intro t c h
  obtain ⟨s, ta, tb⟩ := c
  cases t with
  | B =>
      intro hB
      exact absurd hB (stepTask_ne_ready _ _ _ _)
  | A =>
      intro hB
      have hB0 : tb = TaskState.ready := hB
      obtain ⟨g1, g2, g3⟩ := h hB0
      cases ta with
      | ready =>
          by_cases hl : lockKey user_id ∈ s.locks
          · simp only [stepConfig, stepTask, hl, if_true]
            refine ⟨?_, ?_, ?_⟩
            · rintro (hx | hx) <;> simp at hx
            · intro u hx
              simp at hx
            · rintro u (hx | hx | hx) <;> simp at hx
          · simp only [stepConfig, stepTask, hl, if_false]
            refine ⟨?_, ?_, ?_⟩
            · intro h10
              exact g1 (Or.inl rfl)
            · intro u hx
              simp at hx
            · rintro u (hx | hx | hx) <;> simp at hx
      | gotLock =>
          have hstore : alookup s.store user_id = some u0 := g1 (Or.inr rfl)
          simp only [stepConfig, stepTask, hstore]
          refine ⟨?_, ?_, ?_⟩
          · rintro (hx | hx) <;> simp at hx
          · intro u hx
            injection hx with h10
            exact h10.symm
          · rintro u (hx | hx | hx) <;> simp at hx
      | loaded u =>
          simp only [stepConfig, stepTask]
          refine ⟨?_, ?_, ?_⟩
          · rintro (hx | hx) <;> simp at hx
          · intro u2 hx
            simp at hx
          · rintro u2 (hx | hx | hx)
            · injection hx with h10
              rw [← h10]
              exact g2 u rfl
            · simp at hx
            · simp at hx
      | persisted u =>
          simp only [stepConfig, stepTask]
          refine ⟨?_, ?_, ?_⟩
          · rintro (hx | hx) <;> simp at hx
          · intro u2 hx
            simp at hx
          · rintro u2 (hx | hx | hx)
            · simp at hx
            · injection hx with h10
              rw [← h10]
              exact g3 u (Or.inl rfl)
            · simp at hx
      | invalidated u =>
          simp only [stepConfig, stepTask]
          refine ⟨?_, ?_, ?_⟩
          · rintro (hx | hx) <;> simp at hx
          · intro u2 hx
            simp at hx
          · rintro u2 (hx | hx | hx)
            · simp at hx
            · simp at hx
            · have h10 : u = u2 := by
                simpa using hx
              rw [← h10]
              exact g3 u (Or.inr (Or.inl rfl))
      | noUserRow =>
          simp only [stepConfig, stepTask]
          refine ⟨?_, ?_, ?_⟩
          · rintro (hx | hx) <;> simp at hx
          · intro u2 hx
            simp at hx
          · rintro u2 (hx | hx | hx) <;> simp at hx
      | finishedT r =>
          simp only [stepConfig, stepTask]
          exact ⟨g1, g2, g3⟩

theorem busyBInv_step (user_id : Int) (nuA nuB : User) (v : UpdateResult) :
    ∀ t c, busyBInv user_id nuA v c →
      busyBInv user_id nuA v (stepConfig (user_id, nuA) (user_id, nuB) t c) := by
  intro t c h
  obtain ⟨s, ta, tb⟩ := c
  obtain ⟨hB, hW, hS⟩ := h
  cases t with
  | B =>
      have hB0 : tb = TaskState.finishedT .busy := hB
      subst hB0
      simp only [stepConfig, stepTask]
      exact ⟨rfl, hW, hS⟩
  | A =>
      refine ⟨hB, (willFinish_stepTask user_id nuA ta s).trans hW, ?_⟩
      cases ta with
      | ready =>
          by_cases hl : lockKey user_id ∈ s.locks
          · simp only [stepConfig, stepTask, hl, if_true]
            rintro u (hx | hx | hx) <;> simp at hx
          · simp only [stepConfig, stepTask, hl, if_false]
            rintro u (hx | hx | hx) <;> simp at hx
      | gotLock =>
          rcases hst : alookup s.store user_id with _ | u1
          · simp only [stepConfig, stepTask, hst]
            rintro u (hx | hx | hx) <;> simp at hx
          · simp only [stepConfig, stepTask, hst]
            rintro u (hx | hx | hx) <;> simp at hx
      | loaded u =>
          simp only [stepConfig, stepTask]
          rintro u2 (hx | hx | hx)
          · injection hx with h10
            rw [← h10]
            simp [alookup_cons_self]
          · simp at hx
          · simp at hx
      | persisted u =>
          simp only [stepConfig, stepTask]
          rintro u2 (hx | hx | hx)
          · simp at hx
          · injection hx with h10
            rw [← h10]
            exact hS u (Or.inl rfl)
          · simp at hx
      | invalidated u =>
          simp only [stepConfig, stepTask]
          rintro u2 (hx | hx | hx)
          · simp at hx
          · simp at hx
          · have h10 : u = u2 := by
              simpa using hx
            rw [← h10]
            exact hS u (Or.inr (Or.inl rfl))
      | noUserRow =>
          simp only [stepConfig, stepTask]
          rintro u2 (hx | hx | hx) <;> simp at hx
      | finishedT r =>
          simp only [stepConfig, stepTask]
          exact hS

/-- Five scheduler steps granted to task A finish it with its pending
outcome, whatever its current control state. -/
theorem runFiveA (idA : Int) (nuA : User) (pB : Int × User) (c : TwoTasks) :
    (runSched (idA, nuA) pB [Tid.A, Tid.A, Tid.A, Tid.A, Tid.A] c).tA
      = .finishedT (willFinish idA nuA c.tA c.sys) := by
  obtain ⟨s, ta, tb⟩ := c
  cases ta with
  | ready =>
      by_cases hl : lockKey idA ∈ s.locks
      · simp [runSched, stepConfig, stepTask, willFinish, hl]
      · rcases hs : alookup s.store idA with _ | u
        · simp [runSched, stepConfig, stepTask, willFinish, hl, hs]
        · simp [runSched, stepConfig, stepTask, willFinish, hl, hs]
  | gotLock =>
      rcases hs : alookup s.store idA with _ | u <;>
        simp [runSched, stepConfig, stepTask, willFinish, hs]
  | noUserRow => simp [runSched, stepConfig, stepTask, willFinish]
  | loaded u => simp [runSched, stepConfig, stepTask, willFinish]
  | persisted u => simp [runSched, stepConfig, stepTask, willFinish]
  | invalidated u => simp [runSched, stepConfig, stepTask, willFinish]
  | finishedT r => simp [runSched, stepConfig, stepTask, willFinish]

/-- Five scheduler steps granted to task B finish it with its pending
outcome. -/
theorem runFiveB (pA : Int × User) (idB : Int) (nuB : User) (c : TwoTasks) :
    (runSched pA (idB, nuB) [Tid.B, Tid.B, Tid.B, Tid.B, Tid.B] c).tB
      = .finishedT (willFinish idB nuB c.tB c.sys) := by
  obtain ⟨s, ta, tb⟩ := c
  cases tb with
  | ready =>
      by_cases hl : lockKey idB ∈ s.locks
      · simp [runSched, stepConfig, stepTask, willFinish, hl]
      · rcases hs : alookup s.store idB with _ | u
        · simp [runSched, stepConfig, stepTask, willFinish, hl, hs]
        · simp [runSched, stepConfig, stepTask, willFinish, hl, hs]
  | gotLock =>
      rcases hs : alookup s.store idB with _ | u <;>
        simp [runSched, stepConfig, stepTask, willFinish, hs]
  | noUserRow => simp [runSched, stepConfig, stepTask, willFinish]
  | loaded u => simp [runSched, stepConfig, stepTask, willFinish]
  | persisted u => simp [runSched, stepConfig, stepTask, willFinish]
  | invalidated u => simp [runSched, stepConfig, stepTask, willFinish]
  | finishedT r => simp [runSched, stepConfig, stepTask, willFinish]

/-- A task's eventual outcome is untouched by a step of a task working on
a different id: distinct ids give distinct lock names and distinct store
rows. -/
theorem willFinish_other_step (idA idB : Int) (hne : idA ≠ idB) (nuA nuB : User)
    (ta tb : TaskState) (s : SysState) :
    willFinish idB nuB tb (stepTask idA nuA ta s).2 = willFinish idB nuB tb s := by
  have hk : lockKey idB ≠ lockKey idA := lockKey_ne_of_ne (Ne.symm hne)
  cases ta with
  | ready =>
      by_cases hl : lockKey idA ∈ s.locks
      · simp [stepTask, hl]
      · simp only [stepTask, hl, if_false]
        apply willFinish_congr
        · simp [List.mem_cons, hk]
        · rfl
  | gotLock =>
      rcases hs : alookup s.store idA with _ | u
      · simp [stepTask, hs]
      · simp [stepTask, hs]
  | loaded u =>
      simp only [stepTask]
      apply willFinish_congr
      · exact Iff.rfl
      · exact alookup_cons_ne u s.store hne
  | persisted u =>
      simp only [stepTask]
      apply willFinish_congr
      · exact Iff.rfl
      · rfl
  | invalidated u =>
      simp only [stepTask]
      apply willFinish_congr
      · exact List.mem_erase_of_ne hk
      · rfl
  | noUserRow =>
      simp only [stepTask]
      apply willFinish_congr
      · exact List.mem_erase_of_ne hk
      · rfl
  | finishedT r => simp [stepTask]

theorem twoIdInv_step (idA idB : Int) (hne : idA ≠ idB) (nuA nuB : User)
    (vA vB : UpdateResult) :
    ∀ t c, twoIdInv idA idB nuA nuB vA vB c →
      twoIdInv idA idB nuA nuB vA vB (stepConfig (idA, nuA) (idB, nuB) t c) := by
  intro t c h
  obtain ⟨s, ta, tb⟩ := c
  obtain ⟨hA, hB⟩ := h
  cases t with
  | A =>
      exact ⟨(willFinish_stepTask idA nuA ta s).trans hA,
        (willFinish_other_step idA idB hne nuA nuB ta tb s).trans hB⟩
  | B =>
      exact ⟨(willFinish_other_step idB idA (Ne.symm hne) nuB nuA tb ta s).trans hA,
        (willFinish_stepTask idB nuB tb s).trans hB⟩

/-- A same-id task that holds the lock while the other task has never
stepped will finish with the read-modify-write of the original row. -/
theorem willFinish_of_holding (idA : Int) (nuA uA0 : User) (base : List CKey)
    (c1 : TwoTasks) (hinv : sameIdInv idA base c1) (hsolo : soloInv idA uA0 nuA c1)
    (hA : holding c1.tA = true) (hB : c1.tB = .ready) :
    willFinish idA nuA c1.tA c1.sys = .ok (applyFields uA0 nuA) := by
  obtain ⟨g1, g2, g3⟩ := hsolo hB
  cases hta : c1.tA with
  | ready =>
      rw [hta] at hA
      simp [holding] at hA
  | finishedT r =>
      rw [hta] at hA
      simp [holding] at hA
  | noUserRow => exact absurd hta hinv.2.2.2.1
  | gotLock =>
      have hst := g1 (Or.inr hta)
      simp [willFinish, hta, hst]
  | loaded u =>
      have h10 := g2 u hta
      simp [willFinish, hta, h10]
  | persisted u =>
      have h10 := g3 u (Or.inl hta)
      simp [willFinish, hta, h10]
  | invalidated u =>
      have h10 := g3 u (Or.inr (Or.inl hta))
      simp [willFinish, hta, h10]

/-- C7: (1) two concurrent updates of the same id are mutually exclusive:
under no schedule do both hold the per-id lock; (2) if one updater holds
the lock while the other has not yet attempted acquisition, the other's
acquisition attempt observes busy immediately, stays busy forever, and the
holder alone completes the read-modify-write: it finishes ok with the
original row plus its own fields, which is exactly what the store then
holds (no lost or interleaved update); (3) updates of two distinct ids
use distinct lock names and never contend: under any schedule neither can
finish busy (or not-found), and granting each one five steps completes
both with their own updated rows. -/
theorem C7_lock_serializes_updates
    (idA idB : Int) (nuA nuB uA0 uB0 : User) (s0 : SysState)
    (hsA : alookup s0.store idA = some uA0)
    (hsB : alookup s0.store idB = some uB0)
    (hlA : lockKey idA ∉ s0.locks)
    (hlB : lockKey idB ∉ s0.locks) :
    (∀ sched,
       ¬(holding (runSched (idA, nuA) (idA, nuB) sched ⟨s0, .ready, .ready⟩).tA = true ∧
         holding (runSched (idA, nuA) (idA, nuB) sched ⟨s0, .ready, .ready⟩).tB = true)) ∧
    (∀ sched1,
       holding (runSched (idA, nuA) (idA, nuB) sched1 ⟨s0, .ready, .ready⟩).tA = true →
       (runSched (idA, nuA) (idA, nuB) sched1 ⟨s0, .ready, .ready⟩).tB = .ready →
       (stepConfig (idA, nuA) (idA, nuB) .B
           (runSched (idA, nuA) (idA, nuB) sched1 ⟨s0, .ready, .ready⟩)).tB
         = .finishedT .busy ∧
       (∀ sched2,
          (runSched (idA, nuA) (idA, nuB) sched2
              (stepConfig (idA, nuA) (idA, nuB) .B
                (runSched (idA, nuA) (idA, nuB) sched1 ⟨s0, .ready, .ready⟩))).tB
            = .finishedT .busy) ∧
       (∀ sched2,
          (runSched (idA, nuA) (idA, nuB) (sched2 ++ [Tid.A, Tid.A, Tid.A, Tid.A, Tid.A])
              (stepConfig (idA, nuA) (idA, nuB) .B
                (runSched (idA, nuA) (idA, nuB) sched1 ⟨s0, .ready, .ready⟩))).tA
            = .finishedT (.ok (applyFields uA0 nuA)) ∧
          alookup (runSched (idA, nuA) (idA, nuB)
              (sched2 ++ [Tid.A, Tid.A, Tid.A, Tid.A, Tid.A])
              (stepConfig (idA, nuA) (idA, nuB) .B
                (runSched (idA, nuA) (idA, nuB) sched1
                  ⟨s0, .ready, .ready⟩))).sys.store idA
            = some (applyFields uA0 nuA))) ∧
    (idA ≠ idB →
      ∀ sched,
        (∀ r, (runSched (idA, nuA) (idB, nuB) sched ⟨s0, .ready, .ready⟩).tA
            = .finishedT r → r = .ok (applyFields uA0 nuA)) ∧
        (∀ r, (runSched (idA, nuA) (idB, nuB) sched ⟨s0, .ready, .ready⟩).tB
            = .finishedT r → r = .ok (applyFields uB0 nuB)) ∧
        (runSched (idA, nuA) (idB, nuB)
            (sched ++ [Tid.A, Tid.A, Tid.A, Tid.A, Tid.A,
                       Tid.B, Tid.B, Tid.B, Tid.B, Tid.B])
            ⟨s0, .ready, .ready⟩).tA = .finishedT (.ok (applyFields uA0 nuA)) ∧
        (runSched (idA, nuA) (idB, nuB)
            (sched ++ [Tid.A, Tid.A, Tid.A, Tid.A, Tid.A,
                       Tid.B, Tid.B, Tid.B, Tid.B, Tid.B])
            ⟨s0, .ready, .ready⟩).tB = .finishedT (.ok (applyFields uB0 nuB))) := by
  have hInit1 : sameIdInv idA s0.locks ⟨s0, .ready, .ready⟩ := by
    have hc : ¬(holding TaskState.ready = true ∨ holding TaskState.ready = true) := by
      rintro (hx | hx) <;> simp [holding] at hx
    refine ⟨?_, ?_, ?_, by simp, by simp, by simp, by simp, ?_, ?_⟩
    · rintro ⟨hx, -⟩
      simp [holding] at hx
    · rw [if_neg hc]
    · rw [hsA]
      rfl
    · rintro u (hu | hu) <;> simp at hu
    · rintro u (hu | hu) <;> simp at hu
  have hInitSolo : soloInv idA uA0 nuA ⟨s0, .ready, .ready⟩ := by
    intro hB
    refine ⟨fun h10 => hsA, ?_, ?_⟩
    · intro u hx
      simp at hx
    · rintro u (hx | hx | hx) <;> simp at hx
  have hrun1 : ∀ sched,
      sameIdInv idA s0.locks (runSched (idA, nuA) (idA, nuB) sched ⟨s0, .ready, .ready⟩) :=
    fun sched =>
      runSched_invariant _ _ _ (sameIdInv_step idA nuA nuB s0.locks) sched _ hInit1
  have hrunS : ∀ sched,
      soloInv idA uA0 nuA (runSched (idA, nuA) (idA, nuB) sched ⟨s0, .ready, .ready⟩) :=
    fun sched =>
      runSched_invariant _ _ _ (soloInv_step idA uA0 nuA nuB) sched _ hInitSolo
  refine ⟨fun sched => (hrun1 sched).1, ?_, ?_⟩
  · intro sched1 hA hB
    have hinv := hrun1 sched1
    have hsolo := hrunS sched1
    set c1 := runSched (idA, nuA) (idA, nuB) sched1 ⟨s0, TaskState.ready, TaskState.ready⟩
      with hc1
    have hkey : lockKey idA ∈ c1.sys.locks := by
      have h2 := hinv.2.1
      rw [if_pos (Or.inl hA)] at h2
      rw [h2]
      exact List.mem_cons_self _ _
    have hstep : stepConfig (idA, nuA) (idA, nuB) .B c1 = { c1 with tB := .finishedT .busy } := by
      have hst : stepTask idA nuB c1.tB c1.sys = (.finishedT .busy, c1.sys) := by
        rw [hB]
        simp [stepTask, hkey]
      simp [stepConfig, hst]
    have hval := willFinish_of_holding idA nuA uA0 s0.locks c1 hinv hsolo hA hB
    have hbusy1 : busyBInv idA nuA (.ok (applyFields uA0 nuA))
        (stepConfig (idA, nuA) (idA, nuB) .B c1) := by
      rw [hstep]
      refine ⟨rfl, hval, ?_⟩
      intro u hu
      rcases hu with hu | hu | hu
      · exact hinv.2.2.2.2.2.2.2.1 u (Or.inl hu)
      · exact hinv.2.2.2.2.2.2.2.1 u (Or.inr hu)
      · rw [show ({ c1 with tB := TaskState.finishedT .busy } : TwoTasks).tA = c1.tA from rfl]
          at hu
        rw [hu] at hA
        simp [holding] at hA
    refine ⟨?_, ?_, ?_⟩
    · rw [hstep]
    · intro sched2
      exact (runSched_invariant _ _ _ (busyBInv_step idA nuA nuB _) sched2 _ hbusy1).1
    · intro sched2
      have hfin := runSched_invariant _ _ _ (busyBInv_step idA nuA nuB _)
        (sched2 ++ [Tid.A, Tid.A, Tid.A, Tid.A, Tid.A]) _ hbusy1
      have hmid := runSched_invariant _ _ _ (busyBInv_step idA nuA nuB _) sched2 _ hbusy1
      have hta : (runSched (idA, nuA) (idA, nuB) (sched2 ++ [Tid.A, Tid.A, Tid.A, Tid.A, Tid.A])
          (stepConfig (idA, nuA) (idA, nuB) .B c1)).tA
            = .finishedT (.ok (applyFields uA0 nuA)) := by
        rw [runSched_append, runFiveA, hmid.2.1]
      exact ⟨hta, hfin.2.2 _ (Or.inr (Or.inr hta))⟩
  · intro hne sched
    have hInit3 : twoIdInv idA idB nuA nuB (.ok (applyFields uA0 nuA))
        (.ok (applyFields uB0 nuB)) ⟨s0, .ready, .ready⟩ := by
      constructor
      · simp [willFinish, hlA, hsA]
      · simp [willFinish, hlB, hsB]
    have hrun3 : ∀ sched2, twoIdInv idA idB nuA nuB (.ok (applyFields uA0 nuA))
        (.ok (applyFields uB0 nuB))
        (runSched (idA, nuA) (idB, nuB) sched2 ⟨s0, .ready, .ready⟩) :=
      fun sched2 =>
        runSched_invariant _ _ _ (twoIdInv_step idA idB hne nuA nuB _ _) sched2 _ hInit3
    refine ⟨?_, ?_, ?_, ?_⟩
    · intro r hr
      have h10 := (hrun3 sched).1
      rw [hr] at h10
      simpa [willFinish] using h10
    · intro r hr
      have h10 := (hrun3 sched).2
      rw [hr] at h10
      simpa [willFinish] using h10
    · rw [show sched ++ [Tid.A, Tid.A, Tid.A, Tid.A, Tid.A,
              Tid.B, Tid.B, Tid.B, Tid.B, Tid.B]
            = (sched ++ [Tid.A, Tid.A, Tid.A, Tid.A, Tid.A])
              ++ [Tid.B, Tid.B, Tid.B, Tid.B, Tid.B] from by
            rw [List.append_assoc]
            rfl]
      rw [runSched_append, runSched_allB_tA, runSched_append, runFiveA, (hrun3 sched).1]
    · rw [show sched ++ [Tid.A, Tid.A, Tid.A, Tid.A, Tid.A,
              Tid.B, Tid.B, Tid.B, Tid.B, Tid.B]
            = (sched ++ [Tid.A, Tid.A, Tid.A, Tid.A, Tid.A])
              ++ [Tid.B, Tid.B, Tid.B, Tid.B, Tid.B] from by
            rw [List.append_assoc]
            rfl]
      rw [runSched_append, runFiveB,
        (hrun3 (sched ++ [Tid.A, Tid.A, Tid.A, Tid.A, Tid.A])).2]

/-- Witness for C7 at concrete inputs: ids 1 and 2 both stored, locks
free; schedules [A, B] (contended same-id), [A] then B (overlap: B goes
busy, A completes), and an interleaved run on distinct ids 1 and 2. -/
theorem C7_witness :
    alookup demo2S.store 1 = some annU ∧
    alookup demo2S.store 2 = some danU ∧
    lockKey 1 ∉ demo2S.locks ∧
    lockKey 2 ∉ demo2S.locks ∧
    ¬(holding (runSched (1, bobU) (1, caraU) [Tid.A, Tid.B]
          ⟨demo2S, .ready, .ready⟩).tA = true ∧
      holding (runSched (1, bobU) (1, caraU) [Tid.A, Tid.B]
          ⟨demo2S, .ready, .ready⟩).tB = true) ∧
    (stepConfig (1, bobU) (1, caraU) .B
        (runSched (1, bobU) (1, caraU) [Tid.A] ⟨demo2S, .ready, .ready⟩)).tB
      = .finishedT .busy ∧
    (runSched (1, bobU) (1, caraU) ([] ++ [Tid.A, Tid.A, Tid.A, Tid.A, Tid.A])
        (stepConfig (1, bobU) (1, caraU) .B
          (runSched (1, bobU) (1, caraU) [Tid.A] ⟨demo2S, .ready, .ready⟩))).tA
      = .finishedT (.ok (applyFields annU bobU)) ∧
    (runSched (1, bobU) (2, caraU)
        ([] ++ [Tid.A, Tid.A, Tid.A, Tid.A, Tid.A, Tid.B, Tid.B, Tid.B, Tid.B, Tid.B])
        ⟨demo2S, .ready, .ready⟩).tB = .finishedT (.ok (applyFields danU caraU)) := by
  have h := C7_lock_serializes_updates 1 2 bobU caraU annU danU demo2S
    (by decide) (by decide) (by decide) (by decide)
  refine ⟨by decide, by decide, by decide, by decide, h.1 [Tid.A, Tid.B], ?_, ?_, ?_⟩
  · exact (h.2.1 [Tid.A] (by decide) (by decide)).1
  · exact ((h.2.1 [Tid.A] (by decide) (by decide)).2.2 []).1
  · exact (h.2.2 (by decide) []).2.2.2
